import Mathlib

/-!
Verification of the exercise-tracker backend pipeline
(`trajectory_tracker.py`, `barbell_detector.py`) against its specification.

The pipeline's numeric code uses Python floats; here every float operation
that is field arithmetic (add, sub, mul, div, min, max, abs, comparisons)
is embedded exactly over `ℚ`, Python `int()` truncation and `//` floor
division are embedded over `ℤ`, and the transcendental tail of the joint
angle calculation (`sqrt`, `arccos`, `degrees`) is embedded over `ℝ`.
-/

namespace Tracker

/-- Minimum of a nonempty Python list, `min(xs)`; `0` for `[]` (unreachable
in the source, which only calls it on nonempty lists). -/
def listMin : List ℚ → ℚ
  | [] => 0
  | x :: xs => xs.foldl min x

/-- Maximum of a nonempty Python list, `max(xs)`; `0` for `[]`. -/
def listMax : List ℚ → ℚ
  | [] => 0
  | x :: xs => xs.foldl max x

/-- One entry of `sorted_traj` in `trajectory_tracker.py`: a bar position
with its frame number (`{"frame": ..., "x": ..., "y": ...}`). -/
structure TrajPoint where
  frame : ℤ
  x : ℚ
  y : ℚ
deriving Repr, DecidableEq

/-- One entry appended to `velocities` in the velocity loop of
`trajectory_tracker.py` (lines 174-191).  The `speed` field of the source,
`sqrt(dx^2+dy^2)/dt`, is irrational-valued and is not consumed by any
derived quantity treated here, so it is not carried in the sample. -/
structure VelocitySample where
  frame : ℤ
  vx : ℚ
  vy : ℚ
  vertical_velocity : ℚ
deriving Repr, DecidableEq

/-- The velocity loop of `trajectory_tracker.py` lines 174-191: for each
adjacent pair of trajectory points, `dt = (curr.frame - prev.frame)/fps`;
pairs with `dt <= 0` are skipped (`continue`); otherwise a sample with
`vx = dx/dt`, `vy = dy/dt`, `vertical_velocity = -dy/dt` is emitted. -/
def computeVelocities (fps : ℚ) : List TrajPoint → List VelocitySample
  | p :: q :: rest =>
    let dt : ℚ := ((q.frame - p.frame : ℤ) : ℚ) / fps
    if dt ≤ 0 then
      computeVelocities fps (q :: rest)
    else
      { frame := q.frame
        vx := (q.x - p.x) / dt
        vy := (q.y - p.y) / dt
        vertical_velocity := -(q.y - p.y) / dt } :: computeVelocities fps (q :: rest)
  | _ => []

/-- The crossing loop of `_count_reps` (`trajectory_tracker.py` lines
221-243): walking the tail of the y-sequence with the running `was_below`
flag, count each transition from `was_below` to not `is_below`, where
`is_below` means `y > mid_y`. -/
def crossLoop (midY : ℚ) (wasBelow : Bool) : List ℚ → ℕ
  | [] => 0
  | y :: rest =>
    let isBelow : Bool := decide (y > midY)
    (if wasBelow && !isBelow then 1 else 0) + crossLoop midY isBelow rest

/-- Number of upward midline crossings of a whole y-sequence: the value
`rep_count` holds after the `for` loop of `_count_reps`, for the midline
`mid_y = (min(y_positions) + max(y_positions)) / 2` and initial flag
`was_below = y_positions[0] > mid_y`. -/
def crossCount (ys : List ℚ) : ℕ :=
  match ys with
  | [] => 0
  | y0 :: rest =>
    let midY := (listMin (y0 :: rest) + listMax (y0 :: rest)) / 2
    crossLoop midY (decide (y0 > midY)) rest

/-- The function `_count_reps(y_positions, displacement)` of
`trajectory_tracker.py` lines 221-243: guard clause returning 0 for fewer
than 10 points or displacement below 50; otherwise the upward-crossing
count, with a single-rep fallback when no crossing was found but the
displacement exceeds 100. -/
def count_reps (y_positions : List ℚ) (displacement : ℚ) : ℕ :=
  if y_positions.length < 10 ∨ displacement < 50 then 0
  else if crossCount y_positions > 0 then crossCount y_positions
  else if displacement > 100 then 1 else 0

/-- Vertical displacement of a y-sequence, `max(y) - min(y)`, as computed
by the aggregator before calling `_count_reps`. -/
def displacementOf (ys : List ℚ) : ℚ := listMax ys - listMin ys

/-- `estimated_reps` as emitted by the metrics dictionary: `_count_reps`
applied to the trajectory's y-sequence and its vertical displacement. -/
def estimated_reps (ys : List ℚ) : ℕ := count_reps ys (displacementOf ys)

/-- The `path_verticality` entry of the metrics dictionary
(`trajectory_tracker.py` lines 209-218):
`1.0 - min(x_deviation / (displacement + 1), 1.0)`. -/
def path_verticality (x_deviation displacement : ℚ) : ℚ :=
  1 - min (x_deviation / (displacement + 1)) 1

/-- The `peak_concentric_velocity` entry: `max(vertical_vels)`. -/
def peak_concentric_velocity (vertical_vels : List ℚ) : ℚ :=
  listMax vertical_vels

/-- The `peak_eccentric_velocity` entry: `abs(min(vertical_vels))`. -/
def peak_eccentric_velocity (vertical_vels : List ℚ) : ℚ :=
  |listMin vertical_vels|

/-- One step of the exponential moving average of `barbell_detector.py`
lines 106-109 with `α = 0.5`:
`smooth = smoothed_position + alpha * (raw - smoothed_position)`
applied to both coordinates. -/
def emaStep (smoothed raw : ℚ × ℚ) : ℚ × ℚ :=
  (smoothed.1 + (1 / 2) * (raw.1 - smoothed.1),
   smoothed.2 + (1 / 2) * (raw.2 - smoothed.2))

/-- The smoothing state after feeding the same raw candidate `n` times. -/
def emaIter (raw : ℚ × ℚ) : ℕ → ℚ × ℚ → ℚ × ℚ
  | 0, s => s
  | n + 1, s => emaIter raw n (emaStep s raw)

/-- Python `int()` applied to a rational: truncation toward zero. -/
def pyInt (q : ℚ) : ℤ := if 0 ≤ q then ⌊q⌋ else ⌈q⌉

/-- `_estimate_grip_from_forearm` of `barbell_detector.py` lines 161-180:
extend the forearm vector `wrist_px - elbow_px` past the wrist by the
extension factor 0.18, each offset coordinate truncated by `int()`. -/
def estimate_grip_from_forearm (elbow_px wrist_px : ℤ × ℤ) : ℤ × ℤ :=
  let forearm_dx : ℤ := wrist_px.1 - elbow_px.1
  let forearm_dy : ℤ := wrist_px.2 - elbow_px.2
  (wrist_px.1 + pyInt ((forearm_dx : ℚ) * (9 / 50)),
   wrist_px.2 + pyInt ((forearm_dy : ℚ) * (9 / 50)))

/-- Bar center of `barbell_detector.py` lines 220-230, best case with both
forearms visible: the two grip estimates combined with Python floor
division, `center = (left_grip + right_grip) // 2` per coordinate. -/
def barCenter (left_elbow_px left_wrist_px right_elbow_px right_wrist_px : ℤ × ℤ) : ℤ × ℤ :=
  let left_grip := estimate_grip_from_forearm left_elbow_px left_wrist_px
  let right_grip := estimate_grip_from_forearm right_elbow_px right_wrist_px
  (Int.fdiv (left_grip.1 + right_grip.1) 2,
   Int.fdiv (left_grip.2 + right_grip.2) 2)

/-- Modelled from the spec: the outlier/jump rejection step of
`barbell_detector.py` (`detect_barbell()`), whose full body is not among
the sources; spec section 4.1 step 5 and the PIPELINE.md pseudocode
(`if distance > 500px: reject_and_use_previous()`) give the behaviour.
Given the smoothing state and a raw candidate: if the candidate is more
than 500px from the smoothed position, reject it — keep the state and emit
the previous smoothed position; otherwise apply the EMA update and emit
the new smoothed position.  Returns (new state, emitted position). -/
def updateBar (smoothed raw : ℚ × ℚ) : (ℚ × ℚ) × (ℚ × ℚ) :=
  if (raw.1 - smoothed.1) ^ 2 + (raw.2 - smoothed.2) ^ 2 > 500 ^ 2 then
    (smoothed, smoothed)
  else
    let s := emaStep smoothed raw
    (s, s)

/-- One pose landmark as consumed by `calculate_angle`: dictionary with
`x`, `y` always present and `visibility` possibly absent
(`p.get("visibility", 0)` defaults a missing field to 0). -/
structure Landmark where
  x : ℚ
  y : ℚ
  visibility : Option ℚ
deriving Repr, DecidableEq

/-- Visibility of a landmark with the Python default:
`p.get("visibility", 0)`. -/
def Landmark.vis (p : Landmark) : ℚ := p.visibility.getD 0

/-- `calculate_angle(p1, p2, p3)` of `trajectory_tracker.py` lines 69-94:
`None` when any landmark's visibility is below 0.3; otherwise the angle at
`p2` in degrees via the clipped dot-product formula with the `1e-6`
denominator guard. -/
noncomputable def calculate_angle (p1 p2 p3 : Landmark) : Option ℝ :=
  if p1.vis < 3 / 10 ∨ p2.vis < 3 / 10 ∨ p3.vis < 3 / 10 then none
  else
    let v1x : ℝ := ((p1.x - p2.x : ℚ) : ℝ)
    let v1y : ℝ := ((p1.y - p2.y : ℚ) : ℝ)
    let v2x : ℝ := ((p3.x - p2.x : ℚ) : ℝ)
    let v2y : ℝ := ((p3.y - p2.y : ℚ) : ℝ)
    let cosAngle : ℝ :=
      (v1x * v2x + v1y * v2y) /
        (Real.sqrt (v1x ^ 2 + v1y ^ 2) * Real.sqrt (v2x ^ 2 + v2y ^ 2) + 1 / 1000000)
    let clipped : ℝ := max (-1) (min cosAngle 1)
    some (Real.arccos clipped * 180 / Real.pi)

lemma foldl_min_le_init (xs : List ℚ) (a : ℚ) : xs.foldl min a ≤ a := by
  induction xs generalizing a with
  | nil => exact le_refl a
  | cons x xs ih => exact le_trans (ih (min a x)) (min_le_left a x)

lemma foldl_min_le_mem (xs : List ℚ) (a : ℚ) : ∀ x ∈ xs, xs.foldl min a ≤ x := by
  induction xs generalizing a with
  | nil => intro x hx; exact absurd hx (List.not_mem_nil x)
  | cons y ys ih =>
    intro x hx
    rcases List.mem_cons.mp hx with h | h
    · subst h
      exact le_trans (foldl_min_le_init ys (min a x)) (min_le_right a x)
    · exact ih (min a y) x h

lemma le_foldl_max_init (xs : List ℚ) (a : ℚ) : a ≤ xs.foldl max a := by
  induction xs generalizing a with
  | nil => exact le_refl a
  | cons x xs ih => exact le_trans (le_max_left a x) (ih (max a x))

lemma mem_le_foldl_max (xs : List ℚ) (a : ℚ) : ∀ x ∈ xs, x ≤ xs.foldl max a := by
  induction xs generalizing a with
  | nil => intro x hx; exact absurd hx (List.not_mem_nil x)
  | cons y ys ih =>
    intro x hx
    rcases List.mem_cons.mp hx with h | h
    · subst h
      exact le_trans (le_max_right a x) (le_foldl_max_init ys (max a x))
    · exact ih (max a y) x h

lemma foldl_min_mem (xs : List ℚ) (a : ℚ) : xs.foldl min a = a ∨ xs.foldl min a ∈ xs := by
  induction xs generalizing a with
  | nil => exact Or.inl rfl
  | cons x xs ih =>
    rcases ih (min a x) with h | h
    · rcases min_choice a x with hm | hm
      · exact Or.inl (by rw [List.foldl_cons, h, hm])
      · exact Or.inr (by rw [List.foldl_cons, h, hm]; exact List.mem_cons_self x xs)
    · exact Or.inr (List.mem_cons_of_mem x h)

lemma listMin_mem (x : ℚ) (xs : List ℚ) : listMin (x :: xs) ∈ x :: xs := by
  rcases foldl_min_mem xs x with h | h
  · rw [listMin, h]; exact List.mem_cons_self x xs
  · exact List.mem_cons_of_mem x (by rw [listMin]; exact h)

lemma listMin_le (x : ℚ) (xs : List ℚ) : ∀ y ∈ x :: xs, listMin (x :: xs) ≤ y := by
  intro y hy
  rcases List.mem_cons.mp hy with h | h
  · subst h; exact foldl_min_le_init xs y
  · exact foldl_min_le_mem xs x y h

lemma le_listMax (x : ℚ) (xs : List ℚ) : ∀ y ∈ x :: xs, y ≤ listMax (x :: xs) := by
  intro y hy
  rcases List.mem_cons.mp hy with h | h
  · subst h; exact le_foldl_max_init xs y
  · exact mem_le_foldl_max xs x y h

lemma listMin_le_listMax (x : ℚ) (xs : List ℚ) : listMin (x :: xs) ≤ listMax (x :: xs) :=
  le_trans (listMin_le x xs x (List.mem_cons_self x xs))
    (le_listMax x xs x (List.mem_cons_self x xs))

lemma displacementOf_nonneg (ys : List ℚ) (h : ys ≠ []) : 0 ≤ displacementOf ys := by
  match ys with
  | [] => exact absurd rfl h
  | y :: t =>
    have := listMin_le_listMax y t
    simpa [displacementOf] using this

/-- C4: a y-sequence with fewer than 10 points, or with displacement below
50, makes the rep counter return 0 regardless of the sequence's content. -/
theorem c4_guard_returns_zero (ys : List ℚ) (d : ℚ)
    (h : ys.length < 10 ∨ d < 50) : count_reps ys d = 0 := by
  rw [count_reps, if_pos h]

theorem c4_guard_returns_zero_witness :
    count_reps [0, 1000, 0, 1000] 1000 = 0 ∧ count_reps [0, 10, 0, 10, 0, 10, 0, 10, 0, 10, 0] 10 = 0 :=
  ⟨c4_guard_returns_zero _ _ (Or.inl (by decide)),
   c4_guard_returns_zero _ _ (Or.inr (by decide))⟩

/-- C5: for a y-sequence passing the guard with no upward midline crossing,
the rep counter reports 1 exactly when the displacement exceeds 100, and 0
otherwise. -/
theorem c5_single_cycle_fallback (ys : List ℚ) (d : ℚ)
    (h10 : 10 ≤ ys.length) (h50 : 50 ≤ d) (hc : crossCount ys = 0) :
    count_reps ys d = if 100 < d then 1 else 0 := by
  rw [count_reps, if_neg (by push_neg; exact ⟨by omega, by linarith⟩)]
  rw [hc]
  norm_num

theorem c5_single_cycle_fallback_witness :
    count_reps [0, 10, 20, 30, 40, 50, 60, 70, 80, 90] 90 = (if (100 : ℚ) < 90 then 1 else 0) ∧
    count_reps [0, 15, 30, 45, 60, 75, 90, 105, 120, 150] 150 = (if (100 : ℚ) < 150 then 1 else 0) :=
  ⟨c5_single_cycle_fallback _ _ (by decide) (by decide)
      (by norm_num [crossCount, crossLoop, listMin, listMax]),
   c5_single_cycle_fallback _ _ (by decide) (by decide)
      (by norm_num [crossCount, crossLoop, listMin, listMax])⟩

/-- C3 counterexample: the y-sequence `[0, 15, ..., 135]` passes the guard
(10 points, displacement 135) and contains no below-to-above midline
transition, yet the rep counter reports 1 (the displacement fallback), not
the transition count 0 — so the counter does not always count exactly one
rep per transition. -/
theorem c3_counterexample :
    crossCount [0, 15, 30, 45, 60, 75, 90, 105, 120, 135] = 0 ∧
    estimated_reps [0, 15, 30, 45, 60, 75, 90, 105, 120, 135] = 1 := by
  have hc : crossCount [0, 15, 30, 45, 60, 75, 90, 105, 120, 135] = 0 := by
    norm_num [crossCount, crossLoop, listMin, listMax]
  have hd : displacementOf [0, 15, 30, 45, 60, 75, 90, 105, 120, 135] = 135 := by
    norm_num [displacementOf, listMin, listMax]
  refine ⟨hc, ?_⟩
  rw [estimated_reps, hd, count_reps, hc, if_neg (by decide), if_neg (by omega),
    if_pos (by norm_num)]

/-- C3 amended: whenever at least one below-to-above midline transition
occurs, the rep counter applied to a guard-passing y-sequence returns
exactly the number of such transitions (otherwise the displacement fallback
of C5 applies); in particular the two-cycle synthetic sequence yields
exactly 2 reps. -/
theorem c3_amended_crossings (ys : List ℚ)
    (h10 : 10 ≤ ys.length) (h50 : 50 ≤ displacementOf ys)
    (hc : 1 ≤ crossCount ys) :
    estimated_reps ys = crossCount ys ∧
    estimated_reps [100, 100, 100, 0, 0, 0, 100, 100, 100, 0, 0, 0] = 2 := by
  constructor
  · rw [estimated_reps, count_reps, if_neg (by push_neg; exact ⟨by omega, by linarith⟩),
      if_pos (by omega)]
  · have hc : crossCount [100, 100, 100, 0, 0, 0, 100, 100, 100, 0, 0, 0] = 2 := by
      norm_num [crossCount, crossLoop, listMin, listMax]
    have hd : displacementOf [100, 100, 100, 0, 0, 0, 100, 100, 100, 0, 0, 0] = 100 := by
      norm_num [displacementOf, listMin, listMax]
    rw [estimated_reps, hd, count_reps, hc, if_neg (by decide), if_pos (by omega)]

theorem c3_amended_crossings_witness :
    estimated_reps [100, 100, 100, 0, 0, 0, 100, 100, 100, 0, 0, 0] =
      crossCount [100, 100, 100, 0, 0, 0, 100, 100, 100, 0, 0, 0] ∧
    estimated_reps [100, 100, 100, 0, 0, 0, 100, 100, 100, 0, 0, 0] = 2 :=
  c3_amended_crossings _ (by decide)
    (by norm_num [displacementOf, listMin, listMax])
    (by norm_num [crossCount, crossLoop, listMin, listMax])

/-- C6: for every trajectory (nonempty x- and y-sequences), the path
verticality score lies in [0,1]; it is exactly 1 when the horizontal
deviation is 0, and equals `1/(vertical_displacement + 1)` when the
horizontal deviation equals the vertical displacement. -/
theorem c6_path_verticality (xs ys : List ℚ) (hx : xs ≠ []) (hy : ys ≠ []) :
    (0 ≤ path_verticality (displacementOf xs) (displacementOf ys) ∧
      path_verticality (displacementOf xs) (displacementOf ys) ≤ 1) ∧
    (displacementOf xs = 0 →
      path_verticality (displacementOf xs) (displacementOf ys) = 1) ∧
    (displacementOf xs = displacementOf ys →
      path_verticality (displacementOf xs) (displacementOf ys) =
        1 / (displacementOf ys + 1)) := by
  have hxd : 0 ≤ displacementOf xs := displacementOf_nonneg xs hx
  have hyd : 0 ≤ displacementOf ys := displacementOf_nonneg ys hy
  have hden : (0 : ℚ) < displacementOf ys + 1 := by linarith
  have hratio : 0 ≤ displacementOf xs / (displacementOf ys + 1) :=
    div_nonneg hxd (le_of_lt hden)
  refine ⟨⟨?_, ?_⟩, ?_, ?_⟩
  · rw [path_verticality]
    have : min (displacementOf xs / (displacementOf ys + 1)) 1 ≤ 1 := min_le_right _ _
    linarith
  · rw [path_verticality]
    have : (0 : ℚ) ≤ min (displacementOf xs / (displacementOf ys + 1)) 1 :=
      le_min hratio (by norm_num)
    linarith
  · intro h0
    rw [path_verticality, h0]
    norm_num
  · intro heq
    rw [path_verticality, heq]
    have hlt : displacementOf ys / (displacementOf ys + 1) < 1 := by
      rw [div_lt_one hden]; linarith
    rw [min_eq_left (le_of_lt hlt)]
    field_simp

theorem c6_path_verticality_witness :
    (0 ≤ path_verticality (displacementOf [5, 5]) (displacementOf [0, 100]) ∧
      path_verticality (displacementOf [5, 5]) (displacementOf [0, 100]) ≤ 1) ∧
    path_verticality (displacementOf [5, 5]) (displacementOf [0, 100]) = 1 :=
  ⟨(c6_path_verticality [5, 5] [0, 100] (by decide) (by decide)).1,
   (c6_path_verticality [5, 5] [0, 100] (by decide) (by decide)).2.1
     (by norm_num [displacementOf, listMin, listMax])⟩

/-- C10: `peak_eccentric_velocity` is the absolute value of the minimum
vertical-velocity sample; on a trajectory whose samples are all strictly
positive (purely upward motion) it is still strictly positive and equals
the smallest upward sample, which occurs in the list — a nonzero value does
not witness any downward motion. -/
theorem c10_peak_eccentric_positive (vvs : List ℚ) (hne : vvs ≠ [])
    (hpos : ∀ v ∈ vvs, 0 < v) :
    peak_eccentric_velocity vvs = listMin vvs ∧
    listMin vvs ∈ vvs ∧
    0 < peak_eccentric_velocity vvs := by
  match vvs, hne with
  | x :: xs, _ =>
    have hmem : listMin (x :: xs) ∈ x :: xs := listMin_mem x xs
    have hminpos : 0 < listMin (x :: xs) := hpos _ hmem
    exact ⟨by rw [peak_eccentric_velocity, abs_of_pos hminpos], hmem,
      by rw [peak_eccentric_velocity, abs_of_pos hminpos]; exact hminpos⟩

theorem c10_peak_eccentric_positive_witness :
    peak_eccentric_velocity [3, 1, 2] = listMin [3, 1, 2] ∧
    listMin [3, 1, 2] ∈ ([3, 1, 2] : List ℚ) ∧
    0 < peak_eccentric_velocity [3, 1, 2] :=
  c10_peak_eccentric_positive [3, 1, 2] (by decide) (by decide)

lemma emaIter_sub_fst (raw s : ℚ × ℚ) (n : ℕ) :
    (emaIter raw n s).1 - raw.1 = (1 / 2) ^ n * (s.1 - raw.1) := by
  induction n generalizing s with
  | zero => simp [emaIter]
  | succ n ih =>
    rw [emaIter, ih (emaStep s raw)]
    rw [emaStep]
    ring

lemma emaIter_sub_snd (raw s : ℚ × ℚ) (n : ℕ) :
    (emaIter raw n s).2 - raw.2 = (1 / 2) ^ n * (s.2 - raw.2) := by
  induction n generalizing s with
  | zero => simp [emaIter]
  | succ n ih =>
    rw [emaIter, ih (emaStep s raw)]
    rw [emaStep]
    ring

/-- C8: iterating the α = 0.5 exponential smoothing update with one fixed
raw candidate halves the distance to that candidate each step, so after N
steps `|smoothed_N - raw| = (1/2)^N * |smoothed_0 - raw|` in each
coordinate, and the state comes within any positive ε of the candidate for
large enough N. -/
theorem c8_ema_geometric_convergence (s raw : ℚ × ℚ) (n : ℕ) :
    (|(emaIter raw n s).1 - raw.1| = (1 / 2) ^ n * |s.1 - raw.1| ∧
     |(emaIter raw n s).2 - raw.2| = (1 / 2) ^ n * |s.2 - raw.2|) ∧
    (∀ ε : ℚ, 0 < ε → ∃ N : ℕ,
      |(emaIter raw N s).1 - raw.1| < ε ∧ |(emaIter raw N s).2 - raw.2| < ε) := by
  have h12 : |(1 : ℚ) / 2| = 1 / 2 := by norm_num
  have habs : ∀ m : ℕ, |(emaIter raw m s).1 - raw.1| = (1 / 2) ^ m * |s.1 - raw.1| := by
    intro m
    rw [emaIter_sub_fst raw s m, abs_mul, abs_pow, h12]
  have habs2 : ∀ m : ℕ, |(emaIter raw m s).2 - raw.2| = (1 / 2) ^ m * |s.2 - raw.2| := by
    intro m
    rw [emaIter_sub_snd raw s m, abs_mul, abs_pow, h12]
  refine ⟨⟨habs n, habs2 n⟩, ?_⟩
  intro ε hε
  set C : ℚ := max |s.1 - raw.1| |s.2 - raw.2| with hC
  have hC0 : 0 ≤ C := le_trans (abs_nonneg _) (le_max_left _ _)
  have hC1 : (0 : ℚ) < C + 1 := by linarith
  obtain ⟨N, hN⟩ : ∃ N : ℕ, ((1 : ℚ) / 2) ^ N * (C + 1) < ε := by
    obtain ⟨N, hN⟩ := exists_pow_lt_of_lt_one (div_pos hε hC1)
      (by norm_num : (1 : ℚ) / 2 < 1)
    exact ⟨N, (lt_div_iff₀ hC1).mp hN⟩
  refine ⟨N, ?_, ?_⟩
  · rw [habs N]
    have h1 : |s.1 - raw.1| ≤ C := le_max_left _ _
    have hp : (0 : ℚ) ≤ (1 / 2 : ℚ) ^ N := by positivity
    nlinarith
  · rw [habs2 N]
    have h2 : |s.2 - raw.2| ≤ C := le_max_right _ _
    have hp : (0 : ℚ) ≤ (1 / 2 : ℚ) ^ N := by positivity
    nlinarith

theorem c8_ema_geometric_convergence_witness :
    (|(emaIter (100, 0) 3 (0, 0)).1 - 100| = (1 / 2) ^ 3 * |(0 : ℚ) - 100| ∧
     |(emaIter (100, 0) 3 (0, 0)).2 - 0| = (1 / 2) ^ 3 * |(0 : ℚ) - 0|) ∧
    (∃ N : ℕ, |(emaIter ((100 : ℚ), (0 : ℚ)) N (0, 0)).1 - 100| < 1 ∧
      |(emaIter ((100 : ℚ), (0 : ℚ)) N (0, 0)).2 - 0| < 1) :=
  ⟨(c8_ema_geometric_convergence (0, 0) (100, 0) 3).1,
   (c8_ema_geometric_convergence (0, 0) (100, 0) 3).2 1 (by norm_num)⟩

/-- C2: feeding the estimator a raw candidate more than 500px from the
current smoothed position leaves the smoothing state unchanged, and the
emitted position is the previous smoothed value — in particular it is never
the raw candidate itself. -/
theorem c2_outlier_rejection (smoothed raw : ℚ × ℚ)
    (h : (raw.1 - smoothed.1) ^ 2 + (raw.2 - smoothed.2) ^ 2 > 500 ^ 2) :
    (updateBar smoothed raw).1 = smoothed ∧
    (updateBar smoothed raw).2 = smoothed ∧
    (updateBar smoothed raw).2 ≠ raw := by
  rw [updateBar, if_pos h]
  refine ⟨rfl, rfl, ?_⟩
  intro heq
  rw [← heq] at h
  norm_num at h

theorem c2_outlier_rejection_witness :
    (updateBar (0, 0) (1000, 0)).1 = ((0 : ℚ), (0 : ℚ)) ∧
    (updateBar (0, 0) (1000, 0)).2 = ((0 : ℚ), (0 : ℚ)) ∧
    (updateBar ((0 : ℚ), (0 : ℚ)) (1000, 0)).2 ≠ (1000, 0) :=
  c2_outlier_rejection (0, 0) (1000, 0) (by norm_num)

lemma computeVelocities_vv_eq_neg_vy (fps : ℚ) :
    ∀ traj : List TrajPoint, ∀ v ∈ computeVelocities fps traj,
      v.vertical_velocity = -v.vy := by
  intro traj
  induction traj with
  | nil => intro v hv; simp [computeVelocities] at hv
  | cons p tail ih =>
    cases tail with
    | nil => intro v hv; simp [computeVelocities] at hv
    | cons q rest =>
      intro v hv
      rw [computeVelocities] at hv
      by_cases hdt : ((q.frame - p.frame : ℤ) : ℚ) / fps ≤ 0
      · rw [if_pos hdt] at hv
        exact ih v hv
      · rw [if_neg hdt] at hv
        rcases List.mem_cons.mp hv with h | h
        · rw [h]
          simp only []
          ring
        · exact ih v h

lemma computeVelocities_pos (fps : ℚ) (hfps : 0 < fps) :
    ∀ traj : List TrajPoint,
      traj.Chain' (fun p q => p.frame < q.frame) →
      traj.Chain' (fun p q => q.y < p.y) →
      ∀ v ∈ computeVelocities fps traj, 0 < v.vertical_velocity := by
  intro traj
  induction traj with
  | nil => intro _ _ v hv; simp [computeVelocities] at hv
  | cons p tail ih =>
    cases tail with
    | nil => intro _ _ v hv; simp [computeVelocities] at hv
    | cons q rest =>
      intro hframes hdec v hv
      obtain ⟨hpq, hframes'⟩ := List.chain'_cons.mp hframes
      obtain ⟨hyq, hdec'⟩ := List.chain'_cons.mp hdec
      have hnum : (0 : ℚ) < ((q.frame - p.frame : ℤ) : ℚ) := by
        exact_mod_cast (by omega : (0 : ℤ) < q.frame - p.frame)
      have hdt : (0 : ℚ) < ((q.frame - p.frame : ℤ) : ℚ) / fps := div_pos hnum hfps
      rw [computeVelocities, if_neg (not_le.mpr hdt)] at hv
      rcases List.mem_cons.mp hv with h | h
      · rw [h]
        show 0 < -(q.y - p.y) / (((q.frame - p.frame : ℤ) : ℚ) / fps)
        exact div_pos (by linarith) hdt
      · exact ih hframes' hdec' v h

/-- C1: every sample emitted by the velocity loop satisfies
`vertical_velocity = -vy`; and whenever the frames are strictly increasing
and the y values strictly decreasing across the trajectory (with fps > 0),
every `vertical_velocity` sample is strictly positive. -/
theorem c1_vertical_velocity_sign (fps : ℚ) (traj : List TrajPoint) :
    (∀ v ∈ computeVelocities fps traj, v.vertical_velocity = -v.vy) ∧
    (0 < fps →
      traj.Chain' (fun p q => p.frame < q.frame) →
      traj.Chain' (fun p q => q.y < p.y) →
      ∀ v ∈ computeVelocities fps traj, 0 < v.vertical_velocity) :=
  ⟨computeVelocities_vv_eq_neg_vy fps traj,
   fun hfps hframes hdec => computeVelocities_pos fps hfps traj hframes hdec⟩

theorem c1_vertical_velocity_sign_witness :
    (∀ v ∈ computeVelocities 10
        [⟨0, 0, 100⟩, ⟨1, 0, 90⟩, ⟨2, 0, 80⟩, ⟨3, 0, 70⟩, ⟨4, 0, 60⟩,
         ⟨5, 0, 50⟩, ⟨6, 0, 40⟩, ⟨7, 0, 30⟩, ⟨8, 0, 20⟩, ⟨9, 0, 10⟩],
      v.vertical_velocity = -v.vy) ∧
    (∀ v ∈ computeVelocities 10
        [⟨0, 0, 100⟩, ⟨1, 0, 90⟩, ⟨2, 0, 80⟩, ⟨3, 0, 70⟩, ⟨4, 0, 60⟩,
         ⟨5, 0, 50⟩, ⟨6, 0, 40⟩, ⟨7, 0, 30⟩, ⟨8, 0, 20⟩, ⟨9, 0, 10⟩],
      0 < v.vertical_velocity) :=
  ⟨(c1_vertical_velocity_sign 10 _).1,
   (c1_vertical_velocity_sign 10 _).2 (by norm_num)
     (by norm_num [List.chain'_cons]) (by norm_num [List.chain'_cons])⟩

/-- C7: the joint angle function returns `None` exactly when one of its
landmarks has visibility below 0.3 (a missing visibility field counting
as 0); with all three visibilities at least 0.3 it returns some numeric
angle, never a sentinel. -/
theorem c7_angle_none_iff_low_visibility (p1 p2 p3 : Landmark) :
    (calculate_angle p1 p2 p3 = none ↔
      (p1.vis < 3 / 10 ∨ p2.vis < 3 / 10 ∨ p3.vis < 3 / 10)) ∧
    ((3 / 10 ≤ p1.vis ∧ 3 / 10 ≤ p2.vis ∧ 3 / 10 ≤ p3.vis) →
      ∃ r : ℝ, calculate_angle p1 p2 p3 = some r) := by
  by_cases h : p1.vis < 3 / 10 ∨ p2.vis < 3 / 10 ∨ p3.vis < 3 / 10
  · constructor
    · rw [calculate_angle, if_pos h]
      exact iff_of_true rfl h
    · intro hvis
      exact absurd h (by push_neg; exact hvis)
  · constructor
    · rw [calculate_angle, if_neg h]
      exact iff_of_false (by simp) h
    · intro _
      rw [calculate_angle, if_neg h]
      exact ⟨_, rfl⟩

theorem c7_angle_none_iff_low_visibility_witness :
    calculate_angle ⟨0, 0, some (1 / 5)⟩ ⟨1, 0, some 1⟩ ⟨0, 1, some 1⟩ = none ∧
    ∃ r : ℝ, calculate_angle ⟨0, 0, some 1⟩ ⟨1, 0, some 1⟩ ⟨0, 1, some 1⟩ = some r :=
  ⟨(c7_angle_none_iff_low_visibility _ _ _).1.mpr
      (Or.inl (by norm_num [Landmark.vis])),
   (c7_angle_none_iff_low_visibility _ _ _).2
      ⟨by norm_num [Landmark.vis], by norm_num [Landmark.vis], by norm_num [Landmark.vis]⟩⟩

lemma abs_pyInt_sub_lt_one (q : ℚ) : |((pyInt q : ℤ) : ℚ) - q| < 1 := by
  rw [pyInt]
  split
  · have h1 : ((⌊q⌋ : ℤ) : ℚ) ≤ q := Int.floor_le q
    have h2 : q - 1 < ((⌊q⌋ : ℤ) : ℚ) := Int.sub_one_lt_floor q
    rw [abs_lt]
    constructor <;> linarith
  · have h1 : q ≤ ((⌈q⌉ : ℤ) : ℚ) := Int.le_ceil q
    have h2 : ((⌈q⌉ : ℤ) : ℚ) < q + 1 := Int.ceil_lt_add_one q
    rw [abs_lt]
    constructor <;> linarith

lemma abs_fdiv_two_sub_half (a : ℤ) :
    |((Int.fdiv a 2 : ℤ) : ℚ) - (a : ℚ) / 2| ≤ 1 / 2 := by
  rw [Int.fdiv_eq_ediv a (by norm_num)]
  have h := Int.ediv_add_emod a 2
  have h0 : (0 : ℤ) ≤ a % 2 := Int.emod_nonneg a (by norm_num)
  have h2 : a % 2 < 2 := Int.emod_lt_of_pos a (by norm_num)
  have hm0 : (0 : ℚ) ≤ ((a % 2 : ℤ) : ℚ) := by exact_mod_cast h0
  have hm1 : ((a % 2 : ℤ) : ℚ) ≤ 1 := by exact_mod_cast (by omega : a % 2 ≤ 1)
  have key : ((a / 2 : ℤ) : ℚ) - (a : ℚ) / 2 = -((a % 2 : ℤ) : ℚ) / 2 := by
    have hc : ((2 * (a / 2) + a % 2 : ℤ) : ℚ) = (a : ℚ) := by exact_mod_cast h
    push_cast at hc ⊢
    linarith
  rw [key, abs_le]
  constructor <;> linarith

/-- C9 counterexample: with the left elbow at (0,0) and the left wrist at
(10,0) the emitted grip x-coordinate is `10 + int(10 * 0.18) = 11`, which
is not the exact value `10 + 0.18 * 10 = 11.8` — the `int()` truncation
makes the grip point differ from the exact forearm extension, so the
claimed exact equalities fail. -/
theorem c9_counterexample :
    ¬ (((estimate_grip_from_forearm (0, 0) (10, 0)).1 : ℚ) =
        10 + 9 / 50 * ((10 : ℚ) - 0)) := by
  intro h
  rw [estimate_grip_from_forearm] at h
  norm_num [pyInt] at h

/-- C9 amended: each side's grip point is `wrist + 0.18 * (wrist - elbow)`
with each offset coordinate truncated toward zero by `int()` — hence within
1px of the exact extension — and the emitted bar center is the floor
midpoint of the two grip points, within half a pixel of their exact
midpoint, in each coordinate. -/
theorem c9_grip_and_center_truncation (e w e1 w1 e2 w2 : ℤ × ℤ) :
    |((estimate_grip_from_forearm e w).1 : ℚ) -
        ((w.1 : ℚ) + 9 / 50 * ((w.1 : ℚ) - (e.1 : ℚ)))| < 1 ∧
    |((estimate_grip_from_forearm e w).2 : ℚ) -
        ((w.2 : ℚ) + 9 / 50 * ((w.2 : ℚ) - (e.2 : ℚ)))| < 1 ∧
    |((barCenter e1 w1 e2 w2).1 : ℚ) -
        (((estimate_grip_from_forearm e1 w1).1 : ℚ) +
          ((estimate_grip_from_forearm e2 w2).1 : ℚ)) / 2| ≤ 1 / 2 ∧
    |((barCenter e1 w1 e2 w2).2 : ℚ) -
        (((estimate_grip_from_forearm e1 w1).2 : ℚ) +
          ((estimate_grip_from_forearm e2 w2).2 : ℚ)) / 2| ≤ 1 / 2 := by
  refine ⟨?_, ?_, ?_, ?_⟩
  · have h := abs_pyInt_sub_lt_one (((w.1 - e.1 : ℤ) : ℚ) * (9 / 50))
    rw [estimate_grip_from_forearm]
    have key : ((w.1 + pyInt (((w.1 - e.1 : ℤ) : ℚ) * (9 / 50)) : ℤ) : ℚ) -
        ((w.1 : ℚ) + 9 / 50 * ((w.1 : ℚ) - (e.1 : ℚ))) =
        ((pyInt (((w.1 - e.1 : ℤ) : ℚ) * (9 / 50)) : ℤ) : ℚ) -
          ((w.1 - e.1 : ℤ) : ℚ) * (9 / 50) := by
      push_cast
      ring
    rw [key]
    exact h
  · have h := abs_pyInt_sub_lt_one (((w.2 - e.2 : ℤ) : ℚ) * (9 / 50))
    rw [estimate_grip_from_forearm]
    have key : ((w.2 + pyInt (((w.2 - e.2 : ℤ) : ℚ) * (9 / 50)) : ℤ) : ℚ) -
        ((w.2 : ℚ) + 9 / 50 * ((w.2 : ℚ) - (e.2 : ℚ))) =
        ((pyInt (((w.2 - e.2 : ℤ) : ℚ) * (9 / 50)) : ℤ) : ℚ) -
          ((w.2 - e.2 : ℤ) : ℚ) * (9 / 50) := by
      push_cast
      ring
    rw [key]
    exact h
  · have h := abs_fdiv_two_sub_half
      ((estimate_grip_from_forearm e1 w1).1 + (estimate_grip_from_forearm e2 w2).1)
    rw [barCenter]
    have key : (((estimate_grip_from_forearm e1 w1).1 +
          (estimate_grip_from_forearm e2 w2).1 : ℤ) : ℚ) / 2 =
        (((estimate_grip_from_forearm e1 w1).1 : ℚ) +
          ((estimate_grip_from_forearm e2 w2).1 : ℚ)) / 2 := by
      push_cast
      ring
    rw [← key]
    exact h
  · have h := abs_fdiv_two_sub_half
      ((estimate_grip_from_forearm e1 w1).2 + (estimate_grip_from_forearm e2 w2).2)
    rw [barCenter]
    have key : (((estimate_grip_from_forearm e1 w1).2 +
          (estimate_grip_from_forearm e2 w2).2 : ℤ) : ℚ) / 2 =
        (((estimate_grip_from_forearm e1 w1).2 : ℚ) +
          ((estimate_grip_from_forearm e2 w2).2 : ℚ)) / 2 := by
      push_cast
      ring
    rw [← key]
    exact h

end Tracker
